import Mathlib

/-!
# Verification of multiplayer-bandits individual strategies

Shallow embedding of `src/strategies.py` (multiplayer bandits: RandTopMOld,
RandTopM, MCTopM, Selfish players).

Modelling conventions:
* numpy float arrays become `List ℚ`; per-arm vectors have length `nb_arms`.
* Randomness (`np.random.choice`, the `randmax` tie-break) is modelled by an
  explicit draw `r : ℕ`: a uniform choice from a list `l` returns
  `l.get? (r % l.length)`.  For an empty list this is `none`, modelling the
  runtime failure of `np.random.choice` on an empty array.
* The index policy is an external collaborator; it is passed as a function
  `Policy := PState → List ℚ` (the code's `self.policy.compute_index(self)`).
* `my_arm` starts as `None` (`clear`), hence `Option ℕ`.
* Fallible steps return `Option`: `none` is a runtime error in the Python.
-/

/-- Per-player mutable state, one-to-one with the attributes set in
`Player.clear` in `strategies.py`. -/
structure PState where
  nb_arms : ℕ
  nb_players : ℕ
  nb_draws : List ℚ
  cum_rewards : List ℚ
  t : ℕ
  best_arms : List ℚ
  ucbs : List ℚ
  my_arm : Option ℕ
  has_collided : Bool
  is_on_chair : Bool
  deriving DecidableEq, Repr

/-- The external index policy (`self.policy.compute_index(self)`). -/
def Policy : Type := PState → List ℚ

namespace Player

/-- `Player.clear`: all counters zeroed, `my_arm = None`, flags false. -/
def clear (K M : ℕ) : PState :=
  { nb_arms := K
    nb_players := M
    nb_draws := List.replicate K 0
    cum_rewards := List.replicate K 0
    t := 0
    best_arms := List.replicate M 0
    ucbs := List.replicate K 0
    my_arm := none
    has_collided := false
    is_on_chair := false }

/-- `Player.receive_reward`: add the reward to `cum_rewards[my_arm]`, bump
`nb_draws[my_arm]`, record the collision flag, advance `t`.  When
`my_arm` is still `None`, numpy indexing `arr[None] += x` broadcasts the
update over the whole array: every entry of `cum_rewards` gains `reward`
and every entry of `nb_draws` gains 1. -/
def receive_reward (s : PState) (reward : ℚ) (collision : Bool) : PState :=
  match s.my_arm with
  | some a =>
      { s with
        cum_rewards := s.cum_rewards.set a (s.cum_rewards.getD a 0 + reward)
        nb_draws := s.nb_draws.set a (s.nb_draws.getD a 0 + 1)
        has_collided := collision
        t := s.t + 1 }
  | none =>
      { s with
        cum_rewards := s.cum_rewards.map (· + reward)
        nb_draws := s.nb_draws.map (· + 1)
        has_collided := collision
        t := s.t + 1 }

end Player

/-- Indices attaining the maximum of `v` (ascending index order). -/
def argmaxSet (v : List ℚ) : List ℕ :=
  (List.range v.length).filter (fun i => decide (∀ j < v.length, v.getD j 0 ≤ v.getD i 0))

/-- Modelled from the spec: `randmax` of `src/utils.py` is not in the sources;
§6's ArgmaxTieBreak contract says `pick(values) -> index`, uniform over all
maximizers.  The draw `r` selects uniformly among the maximizing indices. -/
def randmax (v : List ℚ) (r : ℕ) : Option ℕ :=
  (argmaxSet v).get? (r % (argmaxSet v).length)

/-- `np.random.choice` over a list of arm indices, with explicit draw `r`;
`none` on the empty list (runtime `ValueError` in numpy). -/
def npChoice (l : List ℕ) (r : ℕ) : Option ℕ :=
  l.get? (r % l.length)

/-- Comparison of indices through their values in `v` (for `np.argsort`). -/
def leIdx (v : List ℚ) : ℕ → ℕ → Prop := fun i j => v.getD i 0 ≤ v.getD j 0

instance (v : List ℚ) : DecidableRel (leIdx v) := fun i j =>
  inferInstanceAs (Decidable (v.getD i 0 ≤ v.getD j 0))

instance (v : List ℚ) : IsTotal ℕ (leIdx v) := ⟨fun i j => le_total _ _⟩

instance (v : List ℚ) : IsTrans ℕ (leIdx v) := ⟨fun _ _ _ => le_trans⟩

/-- `np.argsort(v)`: the indices of `v` sorted by ascending value
(deterministic tie-break, as §4.2 allows). -/
def argsortAsc (v : List ℚ) : List ℕ :=
  List.insertionSort (leIdx v) (List.range v.length)

/-- `np.argsort(ucbs_new)[::-1][:M]`: the top-M set, best first. -/
def bestArms (v : List ℚ) (M : ℕ) : List ℕ :=
  (argsortAsc v).reverse.take M

/-- `ucbs_new[best_arms[-1]]`: the index value of the M-th best arm. -/
def minUcbOfBest (v : List ℚ) (M : ℕ) : ℚ :=
  match (bestArms v M).getLast? with
  | some b => v.getD b 0
  | none => 0

/-- The filtered replacement candidate set:
`np.where((ucbs <= ucbs[my_arm]) & (ucbs_new >= min_ucb_of_best_arms))[0]`. -/
def candidateSet (old new : List ℚ) (arm : ℕ) (M : ℕ) : List ℕ :=
  (List.range old.length).filter
    (fun a => decide (old.getD a 0 ≤ old.getD arm 0 ∧ minUcbOfBest new M ≤ new.getD a 0))

/-- `np.any(self.nb_draws == 0)`: warm-start still needed. -/
def warmNeeded (s : PState) : Bool :=
  s.nb_draws.any (fun d => decide (d = 0))

/-- Shared warm-start selection: `randmax(-self.nb_draws)`; the state keeps
everything but `my_arm` (`ucbs` is *not* refreshed on this early return). -/
def warmChoose (s : PState) (r : ℕ) : Option (ℕ × PState) :=
  (randmax (s.nb_draws.map (fun d => -d)) r).map (fun a => (a, { s with my_arm := some a }))

namespace PlayerRandTopOld

/-- `PlayerRandTopOld.choose_arm_to_play`.  The post-warm-start branch with
`my_arm = None` is unreachable under the round protocol (numpy indexing with
`None` broadcasts meaninglessly there); it is modelled as failure. -/
def choose_arm_to_play (policy : Policy) (s : PState) (r : ℕ) : Option (ℕ × PState) :=
  if warmNeeded s then warmChoose s r
  else match s.my_arm with
  | none => none
  | some arm =>
    let ucbs_new := policy s
    let B := bestArms ucbs_new s.nb_players
    if arm ∈ B then
      some (arm, { s with ucbs := ucbs_new })
    else if s.has_collided then
      (npChoice B r).map (fun a => (a, { s with my_arm := some a, ucbs := ucbs_new }))
    else
      (npChoice (candidateSet s.ucbs ucbs_new arm s.nb_players) r).map
        (fun a => (a, { s with my_arm := some a, ucbs := ucbs_new }))

end PlayerRandTopOld

namespace PlayerRandTop

/-- `PlayerRandTop.choose_arm_to_play`. -/
def choose_arm_to_play (policy : Policy) (s : PState) (r : ℕ) : Option (ℕ × PState) :=
  if warmNeeded s then warmChoose s r
  else match s.my_arm with
  | none => none
  | some arm =>
    let ucbs_new := policy s
    let B := bestArms ucbs_new s.nb_players
    if arm ∉ B then
      (npChoice (candidateSet s.ucbs ucbs_new arm s.nb_players) r).map
        (fun a => (a, { s with my_arm := some a, ucbs := ucbs_new }))
    else if s.has_collided then
      (npChoice B r).map (fun a => (a, { s with my_arm := some a, ucbs := ucbs_new }))
    else
      some (arm, { s with ucbs := ucbs_new })

end PlayerRandTop

namespace PlayerMCTop

/-- `PlayerMCTop.choose_arm_to_play`. -/
def choose_arm_to_play (policy : Policy) (s : PState) (r : ℕ) : Option (ℕ × PState) :=
  if warmNeeded s then warmChoose s r
  else match s.my_arm with
  | none => none
  | some arm =>
    let ucbs_new := policy s
    let B := bestArms ucbs_new s.nb_players
    if arm ∉ B then
      (npChoice (candidateSet s.ucbs ucbs_new arm s.nb_players) r).map
        (fun a => (a, { s with my_arm := some a, ucbs := ucbs_new, is_on_chair := false }))
    else if s.has_collided && !s.is_on_chair then
      (npChoice B r).map
        (fun a => (a, { s with my_arm := some a, ucbs := ucbs_new, is_on_chair := false }))
    else
      some (arm, { s with ucbs := ucbs_new, is_on_chair := true })

end PlayerMCTop

namespace PlayerSelfish

/-- `PlayerSelfish.choose_arm_to_play`: after warm-start, `randmax` over the
*stored* `ucbs`, then refresh `ucbs` from the policy. -/
def choose_arm_to_play (policy : Policy) (s : PState) (r : ℕ) : Option (ℕ × PState) :=
  if warmNeeded s then warmChoose s r
  else
    (randmax s.ucbs r).map (fun a =>
      let s1 : PState := { s with my_arm := some a }
      (a, { s1 with ucbs := policy s1 }))

/-- `PlayerSelfish.receive_reward`: the effective reward is 0 on collision,
and the base update is always told `collision = false`. -/
def receive_reward (s : PState) (reward : ℚ) (collision : Bool) : PState :=
  Player.receive_reward s (if collision then 0 else reward) false

end PlayerSelfish

/-- The possible arguments of the `strategy` factory in the repository's
closed world: the base `Player` class, the four variants, or something that
is not a `Player` subclass at all. -/
inductive StrategyArg
  | playerBase | randTopOld | randTop | mcTop | selfish | notAPlayerSubclass
  deriving DecidableEq, Repr

/-- `issubclass(strategy, Player)`: true for `Player` itself and for every
variant, false only for a non-`Player` argument. -/
def isPlayerSubclass : StrategyArg → Bool
  | .notAPlayerSubclass => false
  | _ => true

/-- The `strategy` factory: asserts `issubclass(strategy, Player)` (modelled
as `none` on failure) and otherwise builds `nb_players` fresh instances with
the same `nb_arms`/`nb_players` configuration (`__init__` calls `clear`). -/
def strategyFactory (t : StrategyArg) (nb_arms nb_players : ℕ) : Option (List PState) :=
  if isPlayerSubclass t then
    some ((List.range nb_players).map (fun _ => Player.clear nb_arms nb_players))
  else none

/-- `my_arm` is in range whenever it is defined. -/
def myArmOk (s : PState) : Bool :=
  match s.my_arm with
  | none => true
  | some a => a < s.nb_arms

/-- Well-formedness of a state together with its policy: vectors have length
`nb_arms`, the policy returns a length-`nb_arms` vector, `1 ≤ M ≤ K`, and
`my_arm` is in range when defined.   All reachable states of the round
protocol satisfy this. -/
def wf (policy : Policy) (s : PState) : Prop :=
  s.nb_draws.length = s.nb_arms ∧
  s.ucbs.length = s.nb_arms ∧
  (policy s).length = s.nb_arms ∧
  1 ≤ s.nb_players ∧
  s.nb_players ≤ s.nb_arms ∧
  myArmOk s = true

/-! ## Basic facts about the random-selection helpers -/

theorem mem_argmaxSet {v : List ℚ} {a : ℕ} :
    a ∈ argmaxSet v ↔ a < v.length ∧ ∀ j < v.length, v.getD j 0 ≤ v.getD a 0 := by
  simp [argmaxSet, List.mem_filter, List.mem_range]

theorem argmaxSet_nodup (v : List ℚ) : (argmaxSet v).Nodup :=
  (List.nodup_range _).filter _

theorem argmaxSet_ne_nil {v : List ℚ} (hv : v ≠ []) : argmaxSet v ≠ [] := by
  have hlen : 0 < v.length := List.length_pos.mpr hv
  obtain ⟨i, hi, hmax⟩ :=
    Finset.exists_max_image (Finset.range v.length) (fun j => v.getD j 0)
      ⟨0, Finset.mem_range.mpr hlen⟩
  have : i ∈ argmaxSet v := by
    refine mem_argmaxSet.mpr ⟨Finset.mem_range.mp hi, fun j hj => ?_⟩
    exact hmax j (Finset.mem_range.mpr hj)
  exact List.ne_nil_of_mem this

theorem npChoice_mem {l : List ℕ} {r a : ℕ} (h : npChoice l r = some a) : a ∈ l :=
  List.get?_mem h

theorem npChoice_isSome {l : List ℕ} (hl : l ≠ []) (r : ℕ) : ∃ a, npChoice l r = some a := by
  have hlen : 0 < l.length := List.length_pos.mpr hl
  have hr : r % l.length < l.length := Nat.mod_lt _ hlen
  exact ⟨l.get ⟨r % l.length, hr⟩, List.get?_eq_some.mpr ⟨hr, rfl⟩⟩

theorem npChoice_surj {l : List ℕ} {a : ℕ} (h : a ∈ l) : ∃ r, npChoice l r = some a := by
  obtain ⟨n, hn⟩ := List.mem_iff_get?.mp h
  have hlt : n < l.length := (List.get?_eq_some.mp hn).1
  exact ⟨n, by simpa [npChoice, Nat.mod_eq_of_lt hlt] using hn⟩

theorem npChoice_eq_none_iff {l : List ℕ} {r : ℕ} : npChoice l r = none ↔ l = [] := by
  constructor
  · intro h
    by_contra hl
    obtain ⟨a, ha⟩ := npChoice_isSome hl r
    simp [ha] at h
  · intro h; subst h; rfl

theorem randmax_mem {v : List ℚ} {r a : ℕ} (h : randmax v r = some a) : a ∈ argmaxSet v :=
  List.get?_mem h

theorem randmax_isSome {v : List ℚ} (hv : v ≠ []) (r : ℕ) : ∃ a, randmax v r = some a := by
  have h := argmaxSet_ne_nil hv
  have hlen : 0 < (argmaxSet v).length := List.length_pos.mpr h
  have hr : r % (argmaxSet v).length < (argmaxSet v).length := Nat.mod_lt _ hlen
  exact ⟨(argmaxSet v).get ⟨r % (argmaxSet v).length, hr⟩, List.get?_eq_some.mpr ⟨hr, rfl⟩⟩

theorem randmax_surj {v : List ℚ} {a : ℕ} (h : a ∈ argmaxSet v) : ∃ r, randmax v r = some a := by
  obtain ⟨n, hn⟩ := List.mem_iff_get?.mp h
  have hlt : n < (argmaxSet v).length := (List.get?_eq_some.mp hn).1
  exact ⟨n, by simpa [randmax, Nat.mod_eq_of_lt hlt] using hn⟩

/-! ## Facts about `argsortAsc`, `bestArms`, `minUcbOfBest`, `candidateSet` -/

theorem argsortAsc_perm (v : List ℚ) : (argsortAsc v).Perm (List.range v.length) :=
  List.perm_insertionSort _ _

theorem mem_argsortAsc {v : List ℚ} {a : ℕ} : a ∈ argsortAsc v ↔ a < v.length := by
  rw [(argsortAsc_perm v).mem_iff, List.mem_range]

theorem argsortAsc_nodup (v : List ℚ) : (argsortAsc v).Nodup :=
  (argsortAsc_perm v).symm.nodup (List.nodup_range _)

theorem argsortAsc_sorted (v : List ℚ) : List.Sorted (leIdx v) (argsortAsc v) :=
  List.sorted_insertionSort _ _

theorem bestArms_sublist (v : List ℚ) (M : ℕ) : (bestArms v M).Sublist (argsortAsc v).reverse :=
  List.take_sublist _ _

theorem mem_bestArms_lt {v : List ℚ} {M a : ℕ} (h : a ∈ bestArms v M) : a < v.length :=
  mem_argsortAsc.mp (List.mem_reverse.mp ((bestArms_sublist v M).mem h))

theorem bestArms_nodup (v : List ℚ) (M : ℕ) : (bestArms v M).Nodup :=
  (bestArms_sublist v M).nodup (List.nodup_reverse.mpr (argsortAsc_nodup v))

theorem bestArms_length (v : List ℚ) (M : ℕ) :
    (bestArms v M).length = min M v.length := by
  simp [bestArms, argsortAsc, List.length_take]

theorem bestArms_ne_nil {v : List ℚ} {M : ℕ} (hM : 1 ≤ M) (hv : v ≠ []) :
    bestArms v M ≠ [] := by
  apply List.ne_nil_of_length_pos
  rw [bestArms_length]
  exact lt_min hM (List.length_pos.mpr hv)

/-- `bestArms` is sorted by descending value. -/
theorem bestArms_pairwise (v : List ℚ) (M : ℕ) :
    List.Pairwise (fun i j => v.getD j 0 ≤ v.getD i 0) (bestArms v M) := by
  have h : List.Pairwise (fun i j => v.getD j 0 ≤ v.getD i 0) (argsortAsc v).reverse := by
    rw [List.pairwise_reverse]
    exact argsortAsc_sorted v
  exact List.Pairwise.sublist (bestArms_sublist v M) h

/-- In a `Pairwise`-related list, every element is the last one or relates to it. -/
theorem pairwise_rel_getLast {α : Type} {R : α → α → Prop} :
    ∀ {l : List α} {b : α}, List.Pairwise R l → l.getLast? = some b →
      ∀ a ∈ l, a = b ∨ R a b
  | [], _, _, h, _ => by simp at h
  | [x], b, hp, hb, a => by
      intro ha
      simp at hb ha
      subst hb; subst ha; exact Or.inl rfl
  | x :: y :: t, b, hp, hb, a => by
      intro ha
      have hb' : (y :: t).getLast? = some b := by
        simpa [List.getLast?] using hb
      have hbmem : b ∈ y :: t := by
        obtain ⟨ys, hys⟩ := List.getLast?_eq_some_iff.mp hb'
        rw [hys]; simp
      rcases List.mem_cons.mp ha with h1 | h2
      · subst h1
        exact Or.inr ((List.pairwise_cons.mp hp).1 b hbmem)
      · exact pairwise_rel_getLast (List.pairwise_cons.mp hp).2 hb' a h2

theorem minUcbOfBest_le {v : List ℚ} {M b : ℕ} (hB : bestArms v M ≠ [])
    (hb : b ∈ bestArms v M) : minUcbOfBest v M ≤ v.getD b 0 := by
  obtain ⟨c, hc⟩ := Option.ne_none_iff_exists'.mp (mt List.getLast?_eq_none_iff.mp hB)
  rcases pairwise_rel_getLast (bestArms_pairwise v M) hc b hb with h | h
  · subst h; simp [minUcbOfBest, hc]
  · simpa [minUcbOfBest, hc] using h

theorem minUcbOfBest_attained {v : List ℚ} {M : ℕ} (hB : bestArms v M ≠ []) :
    ∃ b ∈ bestArms v M, v.getD b 0 = minUcbOfBest v M := by
  obtain ⟨c, hc⟩ := Option.ne_none_iff_exists'.mp (mt List.getLast?_eq_none_iff.mp hB)
  have hcm : c ∈ bestArms v M := by
    obtain ⟨ys, hys⟩ := List.getLast?_eq_some_iff.mp hc
    rw [hys]; simp
  exact ⟨c, hcm, by simp [minUcbOfBest, hc]⟩

theorem mem_candidateSet {old new : List ℚ} {arm M a : ℕ} :
    a ∈ candidateSet old new arm M ↔
      a < old.length ∧ old.getD a 0 ≤ old.getD arm 0 ∧ minUcbOfBest new M ≤ new.getD a 0 := by
  simp [candidateSet, List.mem_filter, List.mem_range, and_assoc]

theorem candidateSet_nodup (old new : List ℚ) (arm M : ℕ) :
    (candidateSet old new arm M).Nodup :=
  (List.nodup_range _).filter _

/-! ## Warm-start facts -/

theorem getD_map_neg (v : List ℚ) (j : ℕ) :
    (v.map (fun d => -d)).getD j 0 = -(v.getD j 0) := by
  have h := @List.getD_map ℚ ℚ v 0 j (fun d => -d)
  simpa using h

theorem mem_argmaxSet_neg {v : List ℚ} {a : ℕ} :
    a ∈ argmaxSet (v.map (fun d => -d)) ↔
      a < v.length ∧ ∀ j < v.length, v.getD a 0 ≤ v.getD j 0 := by
  rw [mem_argmaxSet]
  simp only [List.length_map, getD_map_neg, neg_le_neg_iff]

theorem warmNeeded_ne_nil {s : PState} (h : warmNeeded s = true) : s.nb_draws ≠ [] := by
  rcases List.any_eq_true.mp h with ⟨x, hx, _⟩
  exact List.ne_nil_of_mem hx

theorem warmChoose_eq_some {s : PState} {r a : ℕ} {s' : PState}
    (h : warmChoose s r = some (a, s')) :
    s' = { s with my_arm := some a } ∧ a < s.nb_draws.length ∧
      ∀ j < s.nb_draws.length, s.nb_draws.getD a 0 ≤ s.nb_draws.getD j 0 := by
  rcases Option.map_eq_some'.mp h with ⟨b, hb, hfb⟩
  have hmem := mem_argmaxSet_neg.mp (randmax_mem hb)
  obtain ⟨rfl, rfl⟩ := Prod.mk.injEq .. ▸ hfb
  exact ⟨rfl, hmem.1, hmem.2⟩

theorem warmChoose_isSome {s : PState} (h : warmNeeded s = true) (r : ℕ) :
    ∃ a s', warmChoose s r = some (a, s') := by
  have hne : s.nb_draws.map (fun d => -d) ≠ [] := by
    simpa using warmNeeded_ne_nil h
  obtain ⟨a, ha⟩ := randmax_isSome hne r
  exact ⟨a, { s with my_arm := some a }, by simp [warmChoose, ha]⟩

theorem warmChoose_surj {s : PState} {b : ℕ} (hb : b < s.nb_draws.length)
    (hmin : ∀ j < s.nb_draws.length, s.nb_draws.getD b 0 ≤ s.nb_draws.getD j 0) :
    ∃ r s', warmChoose s r = some (b, s') := by
  have : b ∈ argmaxSet (s.nb_draws.map (fun d => -d)) :=
    mem_argmaxSet_neg.mpr ⟨hb, hmin⟩
  obtain ⟨r, hr⟩ := randmax_surj this
  exact ⟨r, { s with my_arm := some b }, by simp [warmChoose, hr]⟩

/-! ## Branch lemmas: values of `choose_arm_to_play` in each branch -/

namespace PlayerRandTopOld

theorem oldChoose_warm (policy : Policy) (s : PState) (r : ℕ) (h : warmNeeded s = true) :
    choose_arm_to_play policy s r = warmChoose s r := by
  simp [choose_arm_to_play, h]

theorem oldChoose_keep (policy : Policy) (s : PState) (r arm : ℕ)
    (hw : warmNeeded s = false) (ha : s.my_arm = some arm)
    (hB : arm ∈ bestArms (policy s) s.nb_players) :
    choose_arm_to_play policy s r = some (arm, { s with ucbs := policy s }) := by
  simp [choose_arm_to_play, hw, ha, hB]

theorem oldChoose_collided (policy : Policy) (s : PState) (r arm : ℕ)
    (hw : warmNeeded s = false) (ha : s.my_arm = some arm)
    (hB : arm ∉ bestArms (policy s) s.nb_players) (hc : s.has_collided = true) :
    choose_arm_to_play policy s r =
      (npChoice (bestArms (policy s) s.nb_players) r).map
        (fun a => (a, { s with my_arm := some a, ucbs := policy s })) := by
  simp [choose_arm_to_play, hw, ha, hB, hc]

theorem oldChoose_filtered (policy : Policy) (s : PState) (r arm : ℕ)
    (hw : warmNeeded s = false) (ha : s.my_arm = some arm)
    (hB : arm ∉ bestArms (policy s) s.nb_players) (hc : s.has_collided = false) :
    choose_arm_to_play policy s r =
      (npChoice (candidateSet s.ucbs (policy s) arm s.nb_players) r).map
        (fun a => (a, { s with my_arm := some a, ucbs := policy s })) := by
  simp [choose_arm_to_play, hw, ha, hB, hc]

end PlayerRandTopOld

namespace PlayerRandTop

theorem rtChoose_warm (policy : Policy) (s : PState) (r : ℕ) (h : warmNeeded s = true) :
    choose_arm_to_play policy s r = warmChoose s r := by
  simp [choose_arm_to_play, h]

theorem rtChoose_filtered (policy : Policy) (s : PState) (r arm : ℕ)
    (hw : warmNeeded s = false) (ha : s.my_arm = some arm)
    (hB : arm ∉ bestArms (policy s) s.nb_players) :
    choose_arm_to_play policy s r =
      (npChoice (candidateSet s.ucbs (policy s) arm s.nb_players) r).map
        (fun a => (a, { s with my_arm := some a, ucbs := policy s })) := by
  simp [choose_arm_to_play, hw, ha, hB]

theorem rtChoose_collided (policy : Policy) (s : PState) (r arm : ℕ)
    (hw : warmNeeded s = false) (ha : s.my_arm = some arm)
    (hB : arm ∈ bestArms (policy s) s.nb_players) (hc : s.has_collided = true) :
    choose_arm_to_play policy s r =
      (npChoice (bestArms (policy s) s.nb_players) r).map
        (fun a => (a, { s with my_arm := some a, ucbs := policy s })) := by
  simp [choose_arm_to_play, hw, ha, hB, hc]

theorem rtChoose_keep (policy : Policy) (s : PState) (r arm : ℕ)
    (hw : warmNeeded s = false) (ha : s.my_arm = some arm)
    (hB : arm ∈ bestArms (policy s) s.nb_players) (hc : s.has_collided = false) :
    choose_arm_to_play policy s r = some (arm, { s with ucbs := policy s }) := by
  simp [choose_arm_to_play, hw, ha, hB, hc]

end PlayerRandTop

namespace PlayerMCTop

theorem mcChoose_warm (policy : Policy) (s : PState) (r : ℕ) (h : warmNeeded s = true) :
    choose_arm_to_play policy s r = warmChoose s r := by
  simp [choose_arm_to_play, h]

theorem mcChoose_filtered (policy : Policy) (s : PState) (r arm : ℕ)
    (hw : warmNeeded s = false) (ha : s.my_arm = some arm)
    (hB : arm ∉ bestArms (policy s) s.nb_players) :
    choose_arm_to_play policy s r =
      (npChoice (candidateSet s.ucbs (policy s) arm s.nb_players) r).map
        (fun a => (a, { s with my_arm := some a, ucbs := policy s, is_on_chair := false })) := by
  simp [choose_arm_to_play, hw, ha, hB]

theorem mcChoose_collided (policy : Policy) (s : PState) (r arm : ℕ)
    (hw : warmNeeded s = false) (ha : s.my_arm = some arm)
    (hB : arm ∈ bestArms (policy s) s.nb_players)
    (hc : s.has_collided = true) (hch : s.is_on_chair = false) :
    choose_arm_to_play policy s r =
      (npChoice (bestArms (policy s) s.nb_players) r).map
        (fun a => (a, { s with my_arm := some a, ucbs := policy s, is_on_chair := false })) := by
  simp [choose_arm_to_play, hw, ha, hB, hc, hch]

theorem mcChoose_keep (policy : Policy) (s : PState) (r arm : ℕ)
    (hw : warmNeeded s = false) (ha : s.my_arm = some arm)
    (hB : arm ∈ bestArms (policy s) s.nb_players)
    (hc : s.has_collided = false ∨ s.is_on_chair = true) :
    choose_arm_to_play policy s r =
      some (arm, { s with ucbs := policy s, is_on_chair := true }) := by
  rcases hc with hc | hc <;> simp [choose_arm_to_play, hw, ha, hB, hc]

end PlayerMCTop

namespace PlayerSelfish

theorem sfChoose_warm (policy : Policy) (s : PState) (r : ℕ) (h : warmNeeded s = true) :
    choose_arm_to_play policy s r = warmChoose s r := by
  simp [choose_arm_to_play, h]

theorem sfChoose_main (policy : Policy) (s : PState) (r : ℕ) (hw : warmNeeded s = false) :
    choose_arm_to_play policy s r =
      (randmax s.ucbs r).map (fun a =>
        (a, { s with my_arm := some a,
                     ucbs := policy { s with my_arm := some a } })) := by
  simp [choose_arm_to_play, hw]

end PlayerSelfish

/-- Shared shape of every "pick uniformly from `l`" branch: the outcome is an
element of `l` with the advertised state update, the call succeeds whenever
`l` is nonempty, and every element of `l` is reachable for some draw. -/
theorem uniform_branch {F : ℕ → Option (ℕ × PState)} {l : List ℕ} {g : ℕ → PState}
    (h : ∀ r, F r = (npChoice l r).map (fun a => (a, g a))) :
    (∀ r a s', F r = some (a, s') → a ∈ l ∧ s' = g a) ∧
    (l ≠ [] → ∀ r, ∃ a s', F r = some (a, s')) ∧
    (∀ a ∈ l, ∃ r s', F r = some (a, s')) := by
  refine ⟨?_, ?_, ?_⟩
  · intro r a s' hr
    rw [h r] at hr
    rcases Option.map_eq_some'.mp hr with ⟨b, hb, hfb⟩
    simp only [Prod.mk.injEq] at hfb
    obtain ⟨rfl, rfl⟩ := hfb
    exact ⟨npChoice_mem hb, rfl⟩
  · intro hl r
    obtain ⟨a, ha⟩ := npChoice_isSome hl r
    exact ⟨a, g a, by rw [h r, ha]; rfl⟩
  · intro a ha
    obtain ⟨r, hr⟩ := npChoice_surj ha
    exact ⟨r, g a, by rw [h r, hr]; rfl⟩

/-- Under well-formedness the top-M set is nonempty. -/
theorem bestArms_policy_ne_nil {policy : Policy} {s : PState} (hwf : wf policy s) :
    bestArms (policy s) s.nb_players ≠ [] := by
  obtain ⟨-, -, h3, h4, h5, -⟩ := hwf
  refine bestArms_ne_nil h4 (List.ne_nil_of_length_pos ?_)
  rw [h3]; omega

/-! ## C2: PlayerRandTopOld branch behaviour -/

/-- The post-warm-start behaviour §4.3 ascribes to `PlayerRandTopOld`:
keep an arm of the top-M set unchanged with no randomness; on a collision
outside the top-M set re-sample from the full top-M set; otherwise re-sample
from the filtered candidate set; `ucbs` is refreshed in every returning case. -/
def RandTopOldSpec (policy : Policy) (s : PState) (arm : ℕ) : Prop :=
  (arm ∈ bestArms (policy s) s.nb_players →
     ∀ r, PlayerRandTopOld.choose_arm_to_play policy s r =
       some (arm, { s with ucbs := policy s })) ∧
  (arm ∉ bestArms (policy s) s.nb_players → s.has_collided = true →
     (∀ r a s', PlayerRandTopOld.choose_arm_to_play policy s r = some (a, s') →
        a ∈ bestArms (policy s) s.nb_players ∧
        s' = { s with my_arm := some a, ucbs := policy s }) ∧
     (∀ r, ∃ a s', PlayerRandTopOld.choose_arm_to_play policy s r = some (a, s')) ∧
     (∀ a ∈ bestArms (policy s) s.nb_players,
        ∃ r s', PlayerRandTopOld.choose_arm_to_play policy s r = some (a, s')) ∧
     (bestArms (policy s) s.nb_players).Nodup) ∧
  (arm ∉ bestArms (policy s) s.nb_players → s.has_collided = false →
     (∀ r a s', PlayerRandTopOld.choose_arm_to_play policy s r = some (a, s') →
        a ∈ candidateSet s.ucbs (policy s) arm s.nb_players ∧
        s' = { s with my_arm := some a, ucbs := policy s }) ∧
     (candidateSet s.ucbs (policy s) arm s.nb_players ≠ [] →
        ∀ r, ∃ a s', PlayerRandTopOld.choose_arm_to_play policy s r = some (a, s')) ∧
     (∀ a ∈ candidateSet s.ucbs (policy s) arm s.nb_players,
        ∃ r s', PlayerRandTopOld.choose_arm_to_play policy s r = some (a, s')) ∧
     (candidateSet s.ucbs (policy s) arm s.nb_players).Nodup)

/-- C2: after warm-start, `PlayerRandTopOld.choose_arm_to_play` keeps a
top-M arm unchanged regardless of the collision flag (consulting no
randomness), re-samples uniformly from the full top-M set on a collision
outside the top-M set, re-samples uniformly from the filtered candidate set
otherwise, and always stores the freshly computed index vector. -/
theorem randTopOld_branches (policy : Policy) (s : PState) (arm : ℕ)
    (hwf : wf policy s) (hw : warmNeeded s = false) (ha : s.my_arm = some arm) :
    RandTopOldSpec policy s arm := by
  refine ⟨fun hB r => PlayerRandTopOld.oldChoose_keep policy s r arm hw ha hB, ?_, ?_⟩
  · intro hB hc
    obtain ⟨h1, h2, h3⟩ :=
      uniform_branch (fun r => PlayerRandTopOld.oldChoose_collided policy s r arm hw ha hB hc)
    exact ⟨h1, h2 (bestArms_policy_ne_nil hwf), h3, bestArms_nodup _ _⟩
  · intro hB hc
    obtain ⟨h1, h2, h3⟩ :=
      uniform_branch (fun r => PlayerRandTopOld.oldChoose_filtered policy s r arm hw ha hB hc)
    exact ⟨h1, h2, h3, candidateSet_nodup _ _ _ _⟩

/-! ## C5: shared warm-start rule -/

/-- The warm-start behaviour of §4.1: while some arm is undrawn, every
variant selects via `warmChoose` (`randmax` of the negated draw counts) for
*every* policy — the index policy is not consulted — the selected arm's draw
count is the least element of the draw-count multiset, and every least-drawn
arm is reachable for some draw. -/
def WarmSpec (s : PState) : Prop :=
  (∀ (policy : Policy) (r : ℕ),
     PlayerRandTopOld.choose_arm_to_play policy s r = warmChoose s r ∧
     PlayerRandTop.choose_arm_to_play policy s r = warmChoose s r ∧
     PlayerMCTop.choose_arm_to_play policy s r = warmChoose s r ∧
     PlayerSelfish.choose_arm_to_play policy s r = warmChoose s r) ∧
  (∀ r, ∃ a s', warmChoose s r = some (a, s') ∧ s' = { s with my_arm := some a } ∧
     IsLeast {q | ∃ j < s.nb_draws.length, s.nb_draws.getD j 0 = q} (s.nb_draws.getD a 0)) ∧
  (∀ b, b < s.nb_draws.length →
     (∀ j < s.nb_draws.length, s.nb_draws.getD b 0 ≤ s.nb_draws.getD j 0) →
     ∃ r s', warmChoose s r = some (b, s'))

/-- C5: whenever some arm still has zero draws, every variant picks a
least-drawn arm via the tie-breaking argmax of the negated draw counts,
uniformly among the least-drawn arms, without consulting the index policy. -/
theorem warm_start_rule (s : PState) (h : warmNeeded s = true) : WarmSpec s := by
  refine ⟨fun policy r =>
      ⟨PlayerRandTopOld.oldChoose_warm policy s r h, PlayerRandTop.rtChoose_warm policy s r h,
       PlayerMCTop.mcChoose_warm policy s r h, PlayerSelfish.sfChoose_warm policy s r h⟩,
    ?_, ?_⟩
  · intro r
    obtain ⟨a, s', ha⟩ := warmChoose_isSome h r
    obtain ⟨hs', halt, hmin⟩ := warmChoose_eq_some ha
    refine ⟨a, s', ha, hs', ⟨a, halt, rfl⟩, ?_⟩
    rintro q ⟨j, hj, rfl⟩
    exact hmin j hj
  · intro b hb hmin
    exact warmChoose_surj hb hmin

/-! ## C1: PlayerMCTop branch behaviour -/

/-- The post-warm-start behaviour §4.5 ascribes to `PlayerMCTop`: leaving the
top-M set re-samples uniformly from the filtered candidate set and clears the
chair; a collision while in the top-M set and not on the chair re-samples
uniformly from the full top-M set and keeps the chair cleared; otherwise the
arm is kept and the chair is set; `ucbs` is refreshed in every returning case. -/
def MCTopSpec (policy : Policy) (s : PState) (arm : ℕ) : Prop :=
  (arm ∉ bestArms (policy s) s.nb_players →
     (∀ r a s', PlayerMCTop.choose_arm_to_play policy s r = some (a, s') →
        a ∈ candidateSet s.ucbs (policy s) arm s.nb_players ∧
        s' = { s with my_arm := some a, ucbs := policy s, is_on_chair := false }) ∧
     (candidateSet s.ucbs (policy s) arm s.nb_players ≠ [] →
        ∀ r, ∃ a s', PlayerMCTop.choose_arm_to_play policy s r = some (a, s')) ∧
     (∀ a ∈ candidateSet s.ucbs (policy s) arm s.nb_players,
        ∃ r s', PlayerMCTop.choose_arm_to_play policy s r = some (a, s')) ∧
     (candidateSet s.ucbs (policy s) arm s.nb_players).Nodup) ∧
  (arm ∈ bestArms (policy s) s.nb_players → s.has_collided = true → s.is_on_chair = false →
     (∀ r a s', PlayerMCTop.choose_arm_to_play policy s r = some (a, s') →
        a ∈ bestArms (policy s) s.nb_players ∧
        s' = { s with my_arm := some a, ucbs := policy s, is_on_chair := false }) ∧
     (∀ r, ∃ a s', PlayerMCTop.choose_arm_to_play policy s r = some (a, s')) ∧
     (∀ a ∈ bestArms (policy s) s.nb_players,
        ∃ r s', PlayerMCTop.choose_arm_to_play policy s r = some (a, s')) ∧
     (bestArms (policy s) s.nb_players).Nodup) ∧
  (arm ∈ bestArms (policy s) s.nb_players →
     (s.has_collided = false ∨ s.is_on_chair = true) →
     ∀ r, PlayerMCTop.choose_arm_to_play policy s r =
       some (arm, { s with ucbs := policy s, is_on_chair := true }))

/-- C1: after warm-start, `PlayerMCTop.choose_arm_to_play` implements the
chair state machine of §4.5, storing the freshly computed index vector in
every returning case. -/
theorem mcTop_branches (policy : Policy) (s : PState) (arm : ℕ)
    (hwf : wf policy s) (hw : warmNeeded s = false) (ha : s.my_arm = some arm) :
    MCTopSpec policy s arm := by
  refine ⟨?_, ?_, fun hB hc r => PlayerMCTop.mcChoose_keep policy s r arm hw ha hB hc⟩
  · intro hB
    obtain ⟨h1, h2, h3⟩ :=
      uniform_branch (fun r => PlayerMCTop.mcChoose_filtered policy s r arm hw ha hB)
    exact ⟨h1, h2, h3, candidateSet_nodup _ _ _ _⟩
  · intro hB hc hch
    obtain ⟨h1, h2, h3⟩ :=
      uniform_branch (fun r => PlayerMCTop.mcChoose_collided policy s r arm hw ha hB hc hch)
    exact ⟨h1, h2 (bestArms_policy_ne_nil hwf), h3, bestArms_nodup _ _⟩

/-! ## C3: PlayerRandTop branch behaviour -/

/-- The post-warm-start behaviour §4.4 ascribes to `PlayerRandTop`: leaving
the top-M set re-samples uniformly from the filtered candidate set regardless
of the collision flag; a collision while in the top-M set re-samples
uniformly from the full top-M set (the same arm can be reselected);
otherwise the arm is kept; `ucbs` is refreshed in every returning case. -/
def RandTopSpec (policy : Policy) (s : PState) (arm : ℕ) : Prop :=
  (arm ∉ bestArms (policy s) s.nb_players →
     (∀ r a s', PlayerRandTop.choose_arm_to_play policy s r = some (a, s') →
        a ∈ candidateSet s.ucbs (policy s) arm s.nb_players ∧
        s' = { s with my_arm := some a, ucbs := policy s }) ∧
     (candidateSet s.ucbs (policy s) arm s.nb_players ≠ [] →
        ∀ r, ∃ a s', PlayerRandTop.choose_arm_to_play policy s r = some (a, s')) ∧
     (∀ a ∈ candidateSet s.ucbs (policy s) arm s.nb_players,
        ∃ r s', PlayerRandTop.choose_arm_to_play policy s r = some (a, s')) ∧
     (candidateSet s.ucbs (policy s) arm s.nb_players).Nodup) ∧
  (arm ∈ bestArms (policy s) s.nb_players → s.has_collided = true →
     (∀ r a s', PlayerRandTop.choose_arm_to_play policy s r = some (a, s') →
        a ∈ bestArms (policy s) s.nb_players ∧
        s' = { s with my_arm := some a, ucbs := policy s }) ∧
     (∀ r, ∃ a s', PlayerRandTop.choose_arm_to_play policy s r = some (a, s')) ∧
     (∀ a ∈ bestArms (policy s) s.nb_players,
        ∃ r s', PlayerRandTop.choose_arm_to_play policy s r = some (a, s')) ∧
     (∃ r s', PlayerRandTop.choose_arm_to_play policy s r = some (arm, s')) ∧
     (bestArms (policy s) s.nb_players).Nodup) ∧
  (arm ∈ bestArms (policy s) s.nb_players → s.has_collided = false →
     ∀ r, PlayerRandTop.choose_arm_to_play policy s r =
       some (arm, { s with ucbs := policy s }))

/-- C3: after warm-start, `PlayerRandTop.choose_arm_to_play` implements the
corrected RandTopM rule of §4.4 (a collision in the top-M set always
re-samples, possibly reselecting the same arm), storing the freshly computed
index vector in every returning case. -/
theorem randTop_branches (policy : Policy) (s : PState) (arm : ℕ)
    (hwf : wf policy s) (hw : warmNeeded s = false) (ha : s.my_arm = some arm) :
    RandTopSpec policy s arm := by
  refine ⟨?_, ?_, fun hB hc r => PlayerRandTop.rtChoose_keep policy s r arm hw ha hB hc⟩
  · intro hB
    obtain ⟨h1, h2, h3⟩ :=
      uniform_branch (fun r => PlayerRandTop.rtChoose_filtered policy s r arm hw ha hB)
    exact ⟨h1, h2, h3, candidateSet_nodup _ _ _ _⟩
  · intro hB hc
    obtain ⟨h1, h2, h3⟩ :=
      uniform_branch (fun r => PlayerRandTop.rtChoose_collided policy s r arm hw ha hB hc)
    exact ⟨h1, h2 (bestArms_policy_ne_nil hwf), h3, h3 arm hB, bestArms_nodup _ _⟩

/-! ## C4: the filtered candidate set is an intersection -/

/-- C4: the code's `min_ucb_of_best_arms` (`ucbs_new[best_arms[-1]]`) is the
least new-index value over the top-M set, and the filtered candidate set is
exactly the intersection of the arms whose old index is at most the current
arm's old index with the arms whose new index is at least that minimum. -/
theorem candidate_set_intersection (old new : List ℚ) (arm M K : ℕ)
    (hold : old.length = K) (hnew : new.length = K) (hM : 1 ≤ M) (hMK : M ≤ K) :
    IsLeast {q | ∃ b ∈ bestArms new M, new.getD b 0 = q} (minUcbOfBest new M) ∧
    (candidateSet old new arm M).toFinset =
      (Finset.range K).filter (fun a => old.getD a 0 ≤ old.getD arm 0) ∩
      (Finset.range K).filter (fun a => minUcbOfBest new M ≤ new.getD a 0) := by
  have hKpos : 0 < K := lt_of_lt_of_le hM hMK
  have hnewne : new ≠ [] := List.ne_nil_of_length_pos (hnew ▸ hKpos)
  have hBne : bestArms new M ≠ [] := bestArms_ne_nil hM hnewne
  constructor
  · constructor
    · obtain ⟨b, hb, hbeq⟩ := minUcbOfBest_attained hBne
      exact ⟨b, hb, hbeq⟩
    · rintro q ⟨b, hb, rfl⟩
      exact minUcbOfBest_le hBne hb
  · ext a
    simp only [List.mem_toFinset, mem_candidateSet, Finset.mem_inter, Finset.mem_filter,
      Finset.mem_range, hold]
    tauto

/-! ## C6: Selfish reward bookkeeping -/

/-- Writing back the entry already stored at an in-range position is the
identity. -/
theorem set_getD_self : ∀ (l : List ℚ) (a : ℕ), a < l.length → l.set a (l.getD a 0) = l
  | [], a, h => by simp at h
  | x :: t, 0, _ => by simp
  | x :: t, n + 1, h => by
      have ht : t.set n (t.getD n 0) = t := set_getD_self t n (by simpa using h)
      simpa [List.getD_cons_succ] using ht

/-- C6: `PlayerSelfish.receive_reward` adds nothing to `cum_rewards[my_arm]`
on a collision and adds exactly `reward` otherwise; in both cases the stored
collision flag becomes `false`, `nb_draws[my_arm]` is incremented and `t`
advances, as in the shared bookkeeping. -/
theorem selfish_receive_reward (s : PState) (a : ℕ) (reward : ℚ)
    (ha : s.my_arm = some a) (hc : a < s.cum_rewards.length) :
    (PlayerSelfish.receive_reward s reward true).cum_rewards = s.cum_rewards ∧
    (PlayerSelfish.receive_reward s reward false).cum_rewards =
      s.cum_rewards.set a (s.cum_rewards.getD a 0 + reward) ∧
    (∀ c : Bool, (PlayerSelfish.receive_reward s reward c).has_collided = false) ∧
    (∀ c : Bool, (PlayerSelfish.receive_reward s reward c).nb_draws =
      s.nb_draws.set a (s.nb_draws.getD a 0 + 1)) ∧
    (∀ c : Bool, (PlayerSelfish.receive_reward s reward c).t = s.t + 1) := by
  refine ⟨?_, ?_, ?_, ?_, ?_⟩
  · have h := set_getD_self s.cum_rewards a hc
    simp only [PlayerSelfish.receive_reward, Player.receive_reward, ha]
    simpa using h
  · simp [PlayerSelfish.receive_reward, Player.receive_reward, ha]
  · intro c; cases c <;> simp [PlayerSelfish.receive_reward, Player.receive_reward, ha]
  · intro c; cases c <;> simp [PlayerSelfish.receive_reward, Player.receive_reward, ha]
  · intro c; cases c <;> simp [PlayerSelfish.receive_reward, Player.receive_reward, ha]

/-! ## C9: the chosen arm is always in range -/

theorem PlayerRandTopOld.oldChoose_none (policy : Policy) (s : PState) (r : ℕ)
    (hw : warmNeeded s = false) (ha : s.my_arm = none) :
    choose_arm_to_play policy s r = none := by
  simp [choose_arm_to_play, hw, ha]

theorem PlayerRandTop.rtChoose_none (policy : Policy) (s : PState) (r : ℕ)
    (hw : warmNeeded s = false) (ha : s.my_arm = none) :
    choose_arm_to_play policy s r = none := by
  simp [choose_arm_to_play, hw, ha]

theorem PlayerMCTop.mcChoose_none (policy : Policy) (s : PState) (r : ℕ)
    (hw : warmNeeded s = false) (ha : s.my_arm = none) :
    choose_arm_to_play policy s r = none := by
  simp [choose_arm_to_play, hw, ha]

theorem myArmOk_some {s : PState} {arm : ℕ} (h : myArmOk s = true)
    (ha : s.my_arm = some arm) : arm < s.nb_arms := by
  simpa [myArmOk, ha] using h

theorem warm_range {policy : Policy} {s : PState} {r a : ℕ} {s' : PState}
    (hwf : wf policy s) (h : warmChoose s r = some (a, s')) :
    a < s.nb_arms ∧ s'.my_arm = some a := by
  obtain ⟨hs', hlt, -⟩ := warmChoose_eq_some h
  subst hs'
  exact ⟨hwf.1 ▸ hlt, rfl⟩

theorem PlayerRandTopOld.oldChoose_range {policy : Policy} {s : PState} {r a : ℕ} {s' : PState}
    (hwf : wf policy s) (h : choose_arm_to_play policy s r = some (a, s')) :
    a < s.nb_arms ∧ s'.my_arm = some a := by
  obtain ⟨hd, hu, hp, hM, hMK, hmy⟩ := hwf
  cases hw : warmNeeded s with
  | true =>
      rw [oldChoose_warm policy s r hw] at h
      exact warm_range ⟨hd, hu, hp, hM, hMK, hmy⟩ h
  | false =>
      cases ha : s.my_arm with
      | none => rw [oldChoose_none policy s r hw ha] at h; cases h
      | some arm =>
          by_cases hB : arm ∈ bestArms (policy s) s.nb_players
          · rw [oldChoose_keep policy s r arm hw ha hB] at h
            obtain ⟨rfl, rfl⟩ := by simpa using h
            exact ⟨myArmOk_some hmy ha, ha⟩
          · cases hc : s.has_collided with
            | true =>
                rw [oldChoose_collided policy s r arm hw ha hB hc] at h
                rcases Option.map_eq_some'.mp h with ⟨b, hb, hfb⟩
                simp only [Prod.mk.injEq] at hfb
                obtain ⟨rfl, rfl⟩ := hfb
                exact ⟨hp ▸ mem_bestArms_lt (npChoice_mem hb), rfl⟩
            | false =>
                rw [oldChoose_filtered policy s r arm hw ha hB hc] at h
                rcases Option.map_eq_some'.mp h with ⟨b, hb, hfb⟩
                simp only [Prod.mk.injEq] at hfb
                obtain ⟨rfl, rfl⟩ := hfb
                exact ⟨hu ▸ (mem_candidateSet.mp (npChoice_mem hb)).1, rfl⟩

theorem PlayerRandTop.rtChoose_range {policy : Policy} {s : PState} {r a : ℕ} {s' : PState}
    (hwf : wf policy s) (h : choose_arm_to_play policy s r = some (a, s')) :
    a < s.nb_arms ∧ s'.my_arm = some a := by
  obtain ⟨hd, hu, hp, hM, hMK, hmy⟩ := hwf
  cases hw : warmNeeded s with
  | true =>
      rw [rtChoose_warm policy s r hw] at h
      exact warm_range ⟨hd, hu, hp, hM, hMK, hmy⟩ h
  | false =>
      cases ha : s.my_arm with
      | none => rw [rtChoose_none policy s r hw ha] at h; cases h
      | some arm =>
          by_cases hB : arm ∈ bestArms (policy s) s.nb_players
          · cases hc : s.has_collided with
            | true =>
                rw [rtChoose_collided policy s r arm hw ha hB hc] at h
                rcases Option.map_eq_some'.mp h with ⟨b, hb, hfb⟩
                simp only [Prod.mk.injEq] at hfb
                obtain ⟨rfl, rfl⟩ := hfb
                exact ⟨hp ▸ mem_bestArms_lt (npChoice_mem hb), rfl⟩
            | false =>
                rw [rtChoose_keep policy s r arm hw ha hB hc] at h
                obtain ⟨rfl, rfl⟩ := by simpa using h
                exact ⟨myArmOk_some hmy ha, ha⟩
          · rw [rtChoose_filtered policy s r arm hw ha hB] at h
            rcases Option.map_eq_some'.mp h with ⟨b, hb, hfb⟩
            simp only [Prod.mk.injEq] at hfb
            obtain ⟨rfl, rfl⟩ := hfb
            exact ⟨hu ▸ (mem_candidateSet.mp (npChoice_mem hb)).1, rfl⟩

theorem PlayerMCTop.mcChoose_range {policy : Policy} {s : PState} {r a : ℕ} {s' : PState}
    (hwf : wf policy s) (h : choose_arm_to_play policy s r = some (a, s')) :
    a < s.nb_arms ∧ s'.my_arm = some a := by
  obtain ⟨hd, hu, hp, hM, hMK, hmy⟩ := hwf
  cases hw : warmNeeded s with
  | true =>
      rw [mcChoose_warm policy s r hw] at h
      exact warm_range ⟨hd, hu, hp, hM, hMK, hmy⟩ h
  | false =>
      cases ha : s.my_arm with
      | none => rw [mcChoose_none policy s r hw ha] at h; cases h
      | some arm =>
          by_cases hB : arm ∈ bestArms (policy s) s.nb_players
          · cases hc : s.has_collided with
            | true =>
                cases hch : s.is_on_chair with
                | false =>
                    rw [mcChoose_collided policy s r arm hw ha hB hc hch] at h
                    rcases Option.map_eq_some'.mp h with ⟨b, hb, hfb⟩
                    simp only [Prod.mk.injEq] at hfb
                    obtain ⟨rfl, rfl⟩ := hfb
                    exact ⟨hp ▸ mem_bestArms_lt (npChoice_mem hb), rfl⟩
                | true =>
                    rw [mcChoose_keep policy s r arm hw ha hB (Or.inr hch)] at h
                    obtain ⟨rfl, rfl⟩ := by simpa using h
                    exact ⟨myArmOk_some hmy ha, ha⟩
            | false =>
                rw [mcChoose_keep policy s r arm hw ha hB (Or.inl hc)] at h
                obtain ⟨rfl, rfl⟩ := by simpa using h
                exact ⟨myArmOk_some hmy ha, ha⟩
          · rw [mcChoose_filtered policy s r arm hw ha hB] at h
            rcases Option.map_eq_some'.mp h with ⟨b, hb, hfb⟩
            simp only [Prod.mk.injEq] at hfb
            obtain ⟨rfl, rfl⟩ := hfb
            exact ⟨hu ▸ (mem_candidateSet.mp (npChoice_mem hb)).1, rfl⟩

theorem PlayerSelfish.sfChoose_range {policy : Policy} {s : PState} {r a : ℕ} {s' : PState}
    (hwf : wf policy s) (h : choose_arm_to_play policy s r = some (a, s')) :
    a < s.nb_arms ∧ s'.my_arm = some a := by
  obtain ⟨hd, hu, hp, hM, hMK, hmy⟩ := hwf
  cases hw : warmNeeded s with
  | true =>
      rw [sfChoose_warm policy s r hw] at h
      exact warm_range ⟨hd, hu, hp, hM, hMK, hmy⟩ h
  | false =>
      rw [sfChoose_main policy s r hw] at h
      rcases Option.map_eq_some'.mp h with ⟨b, hb, hfb⟩
      simp only [Prod.mk.injEq] at hfb
      obtain ⟨rfl, rfl⟩ := hfb
      exact ⟨hu ▸ (mem_argmaxSet.mp (randmax_mem hb)).1, rfl⟩

/-- The range invariant of §8.3 for all four variants at once. -/
def ArmInRange (policy : Policy) (s : PState) : Prop :=
  ∀ r a s',
    (PlayerRandTopOld.choose_arm_to_play policy s r = some (a, s') ∨
     PlayerRandTop.choose_arm_to_play policy s r = some (a, s') ∨
     PlayerMCTop.choose_arm_to_play policy s r = some (a, s') ∨
     PlayerSelfish.choose_arm_to_play policy s r = some (a, s')) →
    a < s.nb_arms ∧ s'.my_arm = some a

/-- C9: for every variant, any `choose_arm_to_play` call that returns leaves
`my_arm` equal to the returned arm, an index in `[0, nb_arms)`; this covers
the first call (`my_arm` undefined, warm-start branch) and all later ones. -/
theorem chosen_arm_in_range (policy : Policy) (s : PState) (hwf : wf policy s) :
    ArmInRange policy s := by
  rintro r a s' (h | h | h | h)
  · exact PlayerRandTopOld.oldChoose_range hwf h
  · exact PlayerRandTop.rtChoose_range hwf h
  · exact PlayerMCTop.mcChoose_range hwf h
  · exact PlayerSelfish.sfChoose_range hwf h

/-! ## C7: the strategy factory -/

/-- C7 counterexample: the factory's check is `issubclass(strategy, Player)`,
so the base `Player` class — which is none of the four defined variants — is
accepted and instances are built, contradicting the claim that construction
fails for anything but the four variants. -/
theorem factory_accepts_base_counterexample :
    StrategyArg.playerBase ≠ StrategyArg.randTopOld ∧
    StrategyArg.playerBase ≠ StrategyArg.randTop ∧
    StrategyArg.playerBase ≠ StrategyArg.mcTop ∧
    StrategyArg.playerBase ≠ StrategyArg.selfish ∧
    strategyFactory StrategyArg.playerBase 3 2 =
      some [Player.clear 3 2, Player.clear 3 2] := by
  refine ⟨by decide, by decide, by decide, by decide, rfl⟩

/-- C7 amended: the factory rejects exactly the arguments that are not
`Player` subclasses (hence also accepts the base class); every accepted
argument yields `nb_players` freshly `clear`-initialised instances sharing
the same arm and player counts. -/
theorem strategy_factory_amended (t : StrategyArg) (K M : ℕ)
    (h : isPlayerSubclass t = true) :
    strategyFactory StrategyArg.notAPlayerSubclass K M = none ∧
    ∃ l, strategyFactory t K M = some l ∧ l.length = M ∧
      ∀ inst ∈ l, inst = Player.clear K M := by
  refine ⟨rfl, (List.range M).map (fun _ => Player.clear K M), ?_, by simp, ?_⟩
  · simp [strategyFactory, h]
  · intro inst hinst
    rcases List.mem_map.mp hinst with ⟨_, -, rfl⟩
    rfl

/-! ## C8: empty filtered candidate set -/

/-- Index policy used in concrete scenarios: arm 1 is now the better arm. -/
def cexPolicy : Policy := fun _ => [0, 1]

/-- A post-warm-start state (two arms, one player) holding arm 0, whose old
index vector makes the filtered candidate set empty once arm 1 takes over. -/
def cexState : PState :=
  { nb_arms := 2, nb_players := 1, nb_draws := [1, 1], cum_rewards := [0, 0],
    t := 2, best_arms := [0], ucbs := [0, 1], my_arm := some 0,
    has_collided := false, is_on_chair := false }

/-- C8 counterexample: in the switching branches there is no fallback —
with the state above the filtered candidate set is empty and all three
variants' `choose_arm_to_play` fail (an unconditional `np.random.choice`
over an empty array), instead of applying any explicit fallback policy. -/
theorem empty_candidate_failure_counterexample :
    candidateSet cexState.ucbs (cexPolicy cexState) 0 cexState.nb_players = [] ∧
    warmNeeded cexState = false ∧
    cexState.my_arm = some 0 ∧
    0 ∉ bestArms (cexPolicy cexState) cexState.nb_players ∧
    cexState.has_collided = false ∧
    PlayerRandTopOld.choose_arm_to_play cexPolicy cexState 0 = none ∧
    PlayerRandTop.choose_arm_to_play cexPolicy cexState 0 = none ∧
    PlayerMCTop.choose_arm_to_play cexPolicy cexState 0 = none := by
  decide

/-- C8 amended: the switching branches perform an unconditional uniform
choice with no fallback: after warm-start, with the current arm outside the
top-M set, each variant's call fails exactly when the filtered candidate set
is empty (and succeeds otherwise). -/
theorem empty_candidate_no_fallback (policy : Policy) (s : PState) (arm : ℕ)
    (hw : warmNeeded s = false) (ha : s.my_arm = some arm)
    (hB : arm ∉ bestArms (policy s) s.nb_players) :
    (s.has_collided = false → ∀ r,
       (PlayerRandTopOld.choose_arm_to_play policy s r = none ↔
        candidateSet s.ucbs (policy s) arm s.nb_players = [])) ∧
    (∀ r, PlayerRandTop.choose_arm_to_play policy s r = none ↔
        candidateSet s.ucbs (policy s) arm s.nb_players = []) ∧
    (∀ r, PlayerMCTop.choose_arm_to_play policy s r = none ↔
        candidateSet s.ucbs (policy s) arm s.nb_players = []) := by
  refine ⟨?_, ?_, ?_⟩
  · intro hc r
    rw [PlayerRandTopOld.oldChoose_filtered policy s r arm hw ha hB hc,
      Option.map_eq_none', npChoice_eq_none_iff]
  · intro r
    rw [PlayerRandTop.rtChoose_filtered policy s r arm hw ha hB,
      Option.map_eq_none', npChoice_eq_none_iff]
  · intro r
    rw [PlayerMCTop.mcChoose_filtered policy s r arm hw ha hB,
      Option.map_eq_none', npChoice_eq_none_iff]

/-! ## C10: `receive_reward` with an undefined current arm -/

/-- C10: `clear` leaves `my_arm` undefined, and calling the shared
`receive_reward` in that situation broadcasts the update (numpy `arr[None]`):
*every* entry of `cum_rewards` gains `reward` and *every* entry of `nb_draws`
gains one, so a prior `choose_arm_to_play` is a necessary precondition for
the single-arm bookkeeping contract, which holds whenever `my_arm` is set. -/
theorem receive_reward_targeting (s : PState) (reward : ℚ) (collision : Bool)
    (h : s.my_arm = none) :
    (∀ K M, (Player.clear K M).my_arm = none) ∧
    (Player.receive_reward s reward collision).cum_rewards =
      s.cum_rewards.map (· + reward) ∧
    (Player.receive_reward s reward collision).nb_draws =
      s.nb_draws.map (· + 1) ∧
    (Player.receive_reward s reward collision).has_collided = collision ∧
    (Player.receive_reward s reward collision).t = s.t + 1 ∧
    (∀ (s₂ : PState) (a : ℕ), s₂.my_arm = some a →
       (Player.receive_reward s₂ reward collision).cum_rewards =
         s₂.cum_rewards.set a (s₂.cum_rewards.getD a 0 + reward) ∧
       (Player.receive_reward s₂ reward collision).nb_draws =
         s₂.nb_draws.set a (s₂.nb_draws.getD a 0 + 1)) := by
  refine ⟨fun K M => rfl, ?_, ?_, ?_, ?_, ?_⟩
  · simp [Player.receive_reward, h]
  · simp [Player.receive_reward, h]
  · simp [Player.receive_reward, h]
  · simp [Player.receive_reward, h]
  · intro s₂ a ha
    constructor <;> simp [Player.receive_reward, ha]

/-! ## Concrete scenarios and witnesses -/

/-- A concrete post-warm-start state: two arms, one player, holding arm 0. -/
def exState : PState :=
  { nb_arms := 2, nb_players := 1, nb_draws := [1, 1], cum_rewards := [3, 0],
    t := 2, best_arms := [0], ucbs := [1, 0], my_arm := some 0,
    has_collided := false, is_on_chair := false }

/-- Index policy keeping arm 0 on top. -/
def exPolicy : Policy := fun _ => [1, 0]

/-- A state still in warm-start: arm 1 has never been drawn. -/
def warmState : PState :=
  { nb_arms := 2, nb_players := 1, nb_draws := [1, 0], cum_rewards := [0, 0],
    t := 1, best_arms := [0], ucbs := [0, 0], my_arm := some 0,
    has_collided := false, is_on_chair := false }

theorem mcTop_branches_witness :
    wf exPolicy exState ∧ warmNeeded exState = false ∧ exState.my_arm = some 0 ∧
      MCTopSpec exPolicy exState 0 := by
  have hwf : wf exPolicy exState := ⟨rfl, rfl, rfl, by decide, by decide, rfl⟩
  exact ⟨hwf, by decide, rfl, mcTop_branches exPolicy exState 0 hwf (by decide) rfl⟩

theorem randTopOld_branches_witness :
    wf exPolicy exState ∧ warmNeeded exState = false ∧ exState.my_arm = some 0 ∧
      RandTopOldSpec exPolicy exState 0 := by
  have hwf : wf exPolicy exState := ⟨rfl, rfl, rfl, by decide, by decide, rfl⟩
  exact ⟨hwf, by decide, rfl, randTopOld_branches exPolicy exState 0 hwf (by decide) rfl⟩

theorem randTop_branches_witness :
    wf exPolicy exState ∧ warmNeeded exState = false ∧ exState.my_arm = some 0 ∧
      RandTopSpec exPolicy exState 0 := by
  have hwf : wf exPolicy exState := ⟨rfl, rfl, rfl, by decide, by decide, rfl⟩
  exact ⟨hwf, by decide, rfl, randTop_branches exPolicy exState 0 hwf (by decide) rfl⟩

theorem candidate_set_intersection_witness :
    ([(0 : ℚ), 1].length = 2 ∧ 1 ≤ 1 ∧ 1 ≤ 2) ∧
    IsLeast {q | ∃ b ∈ bestArms [(0 : ℚ), 1] 1, ([(0 : ℚ), 1]).getD b 0 = q}
      (minUcbOfBest [(0 : ℚ), 1] 1) ∧
    (candidateSet [(0 : ℚ), 1] [(0 : ℚ), 1] 0 1).toFinset =
      (Finset.range 2).filter
        (fun a => ([(0 : ℚ), 1]).getD a 0 ≤ ([(0 : ℚ), 1]).getD 0 0) ∩
      (Finset.range 2).filter
        (fun a => minUcbOfBest [(0 : ℚ), 1] 1 ≤ ([(0 : ℚ), 1]).getD a 0) :=
  ⟨⟨rfl, by decide, by decide⟩,
    candidate_set_intersection [0, 1] [0, 1] 0 1 2 rfl rfl (by decide) (by decide)⟩

theorem warm_start_rule_witness :
    warmNeeded warmState = true ∧ WarmSpec warmState :=
  ⟨by decide, warm_start_rule warmState (by decide)⟩

theorem selfish_receive_reward_witness :
    (exState.my_arm = some 0 ∧ 0 < exState.cum_rewards.length) ∧
    (PlayerSelfish.receive_reward exState 5 true).cum_rewards = exState.cum_rewards ∧
    (PlayerSelfish.receive_reward exState 5 false).cum_rewards =
      exState.cum_rewards.set 0 (exState.cum_rewards.getD 0 0 + 5) ∧
    (∀ c : Bool, (PlayerSelfish.receive_reward exState 5 c).has_collided = false) ∧
    (∀ c : Bool, (PlayerSelfish.receive_reward exState 5 c).nb_draws =
      exState.nb_draws.set 0 (exState.nb_draws.getD 0 0 + 1)) ∧
    (∀ c : Bool, (PlayerSelfish.receive_reward exState 5 c).t = exState.t + 1) :=
  ⟨⟨rfl, by decide⟩, selfish_receive_reward exState 0 5 rfl (by decide)⟩

theorem strategy_factory_amended_witness :
    isPlayerSubclass StrategyArg.randTopOld = true ∧
    strategyFactory StrategyArg.notAPlayerSubclass 3 2 = none ∧
    ∃ l, strategyFactory StrategyArg.randTopOld 3 2 = some l ∧ l.length = 2 ∧
      ∀ inst ∈ l, inst = Player.clear 3 2 :=
  ⟨by decide, strategy_factory_amended StrategyArg.randTopOld 3 2 (by decide)⟩

theorem empty_candidate_no_fallback_witness :
    (warmNeeded cexState = false ∧ cexState.my_arm = some 0 ∧
     0 ∉ bestArms (cexPolicy cexState) cexState.nb_players) ∧
    (cexState.has_collided = false → ∀ r,
       (PlayerRandTopOld.choose_arm_to_play cexPolicy cexState r = none ↔
        candidateSet cexState.ucbs (cexPolicy cexState) 0 cexState.nb_players = [])) ∧
    (∀ r, PlayerRandTop.choose_arm_to_play cexPolicy cexState r = none ↔
        candidateSet cexState.ucbs (cexPolicy cexState) 0 cexState.nb_players = []) ∧
    (∀ r, PlayerMCTop.choose_arm_to_play cexPolicy cexState r = none ↔
        candidateSet cexState.ucbs (cexPolicy cexState) 0 cexState.nb_players = []) :=
  ⟨⟨by decide, rfl, by decide⟩,
    empty_candidate_no_fallback cexPolicy cexState 0 (by decide) rfl (by decide)⟩

theorem chosen_arm_in_range_witness :
    wf exPolicy exState ∧ ArmInRange exPolicy exState := by
  have hwf : wf exPolicy exState := ⟨rfl, rfl, rfl, by decide, by decide, rfl⟩
  exact ⟨hwf, chosen_arm_in_range exPolicy exState hwf⟩

theorem receive_reward_targeting_witness :
    (Player.clear 2 1).my_arm = none ∧
    (∀ K M, (Player.clear K M).my_arm = none) ∧
    (Player.receive_reward (Player.clear 2 1) 5 true).cum_rewards =
      (Player.clear 2 1).cum_rewards.map (· + 5) ∧
    (Player.receive_reward (Player.clear 2 1) 5 true).nb_draws =
      (Player.clear 2 1).nb_draws.map (· + 1) ∧
    (Player.receive_reward (Player.clear 2 1) 5 true).has_collided = true ∧
    (Player.receive_reward (Player.clear 2 1) 5 true).t = (Player.clear 2 1).t + 1 ∧
    (∀ (s₂ : PState) (a : ℕ), s₂.my_arm = some a →
       (Player.receive_reward s₂ 5 true).cum_rewards =
         s₂.cum_rewards.set a (s₂.cum_rewards.getD a 0 + 5) ∧
       (Player.receive_reward s₂ 5 true).nb_draws =
         s₂.nb_draws.set a (s₂.nb_draws.getD a 0 + 1)) :=
  ⟨rfl, receive_reward_targeting (Player.clear 2 1) 5 true rfl⟩
